import Mathlib

/- Shallow embedding of the YATSM time-series segmentation code base
(`yatsm/algorithms/yatsm.py`, `scripts/yatsm_map.py`, `yatsm/cli/train_mult.py`)
together with theorems checking the natural-language specification against it.

Machine integers (`i4`, `u2`) are modelled as `Int`/`Nat` with explicit
wrap-around where an assignment can overflow; `float32`/`float64` arithmetic is
modelled exactly over `ℚ` (the statements under study are about the algebraic
formulas, not rounding). -/

/-- A Python slice object, as stored in patsy `DesignInfo.term_name_slices`. -/
structure PySlice where
  start : Nat
  stop : Nat
  deriving DecidableEq, Repr

/-- The part of a patsy `DesignInfo` read by `YATSM.__init__`: the ordered
dictionary mapping term names to column slices, and the column-name list. -/
structure DesignInfo where
  term_name_slices : List (String × PySlice)
  column_names : List String
  deriving DecidableEq, Repr

/-- Dictionary lookup `design_info.term_name_slices[name]`; `none` exactly when
`name not in design_info.term_name_slices.keys()`. -/
def DesignInfo.slice? (d : DesignInfo) (name : String) : Option PySlice :=
  (d.term_name_slices.find? (fun p => p.1 == name)).map Prod.snd

/-- The value of the Python expression `np.asarray(test_indices)`.
`np.asarray` applied to a list gives an integer array; applied to `None` it
gives a 0-dimensional object array holding `None` (an `ndarray`, not `None`). -/
inductive NpIndexArray where
  | ofList (xs : List Nat) : NpIndexArray
  | objNone : NpIndexArray
  deriving DecidableEq, Repr

/-- `np.asarray` on an argument that is either a list of indices or `None`. -/
def np_asarray : Option (List Nat) → NpIndexArray
  | some xs => NpIndexArray.ofList xs
  | none => NpIndexArray.objNone

/-- Python `arr is None` where `arr` is a value returned by `np.asarray`:
an `ndarray` object is never the `None` singleton, so this is always `false`
(for input `None`, `np.asarray` returns a 0-d object array *holding* `None`). -/
def np_is_none : NpIndexArray → Bool
  | _ => false

/-- One element of the structured array built by `np.zeros(1, dtype=...)` in
`YATSM.__init__`.  Fields: `start`/`end`/`break` (`i4`), `coef`
(`float32`, shape `(len(column_names), len(fit_indices))`), `px`/`py` (`u2`).
Python's reserved word `break` is rendered `brk`, Lean's reserved word `end`
is rendered `end_`. -/
structure TemplateRecord where
  start : Int
  end_ : Int
  brk : Int
  coef : List (List ℚ)
  px : Nat
  py : Nat
  deriving DecidableEq, Repr

/-- `np.zeros` of shape `(rows, cols)`. -/
def zeroMatrix (rows cols : Nat) : List (List ℚ) :=
  List.replicate rows (List.replicate cols 0)

/-- Error values raised by the translated sources.  `attributeError` and
`typeError` are Python's builtin `AttributeError` and `TypeError`;
`trainingDataException` is `yatsm.errors.TrainingDataException`.
`configurationError` is the error class named by the specification's taxonomy;
no translated source defines or raises it — it is present only so that
statements mentioning it can be written. -/
inductive PyError where
  | attributeError (msg : String)
  | typeError (msg : String)
  | trainingDataException (msg : String)
  | configurationError (msg : String)
  deriving DecidableEq, Repr

/-- The attributes set by `YATSM.__init__` (`yatsm/algorithms/yatsm.py`). -/
structure YATSM where
  fit_indices : List Nat
  design_info : DesignInfo
  i_x : Nat
  test_indices : NpIndexArray
  record_template : List TemplateRecord
  n_record : Nat
  record : List TemplateRecord
  deriving DecidableEq, Repr

/-- `YATSM.__init__(fit_indices, design_info, test_indices=None, **kwargs)`.

Line by line: check `'x' in design_info.term_name_slices.keys()` and raise
`AttributeError` otherwise; `i_x = term_name_slices['x'].start`;
`test_indices = np.asarray(test_indices)` followed by the (dead, see
`np_is_none`) `is None` check; build the one-element zeroed
`record_template`, assign `px`/`py` from the keyword arguments (default 0,
wrapped to the `u2` field width), and set `record = np.copy(record_template)`.

The method ends with `super(YATSM, self).__init__(**kwargs)`.  `kwargs.get`
reads but does not remove the keys, so any supplied `px`/`py` keyword
argument reaches `object.__init__`, which raises `TypeError` for excess
keyword arguments because `YATSM` does not override `__new__`; the raise
aborts the constructor (the field assignments made before it are lost with
the unfinished instance), so the expression `YATSM(...)` yields a model only
when no keyword argument is supplied. -/
def YATSM.init (fit_indices : List Nat) (design_info : DesignInfo)
    (test_indices : Option (List Nat)) (px py : Option Nat) :
    Except PyError YATSM :=
  match design_info.slice? "x" with
  | none => .error (.attributeError "Design info must specify x (slope)")
  | some s =>
      let ti0 := np_asarray test_indices
      let ti := if np_is_none ti0 then NpIndexArray.ofList fit_indices else ti0
      let tmpl : TemplateRecord :=
        { start := 0, end_ := 0, brk := 0,
          coef := zeroMatrix design_info.column_names.length fit_indices.length,
          px := (px.getD 0) % 65536,
          py := (py.getD 0) % 65536 }
      if px.isSome || py.isSome then
        .error (.typeError "object.__init__() takes no parameters")
      else
        .ok { fit_indices := fit_indices, design_info := design_info,
              i_x := s.start, test_indices := ti, record_template := [tmpl],
              n_record := 0, record := [tmpl] }

/-- `YATSM.__len__`: `self.record.shape[0]`. -/
def YATSM.len (m : YATSM) : Nat := m.record.length

/-- Does an `Except` value carry the specification taxonomy's
`ConfigurationError`? -/
def isConfigurationError {α : Type} : Except PyError α → Bool
  | .error (.configurationError _) => true
  | _ => false

/-- Does an `Except` value carry a successfully constructed result? -/
def isOkResult {α : Type} : Except PyError α → Bool
  | .ok _ => true
  | _ => false

/-- A design with an intercept only and no `x` (slope) term. -/
def designNoSlope : DesignInfo :=
  { term_name_slices := [("Intercept", ⟨0, 1⟩)],
    column_names := ["Intercept"] }

/-- A design with intercept and slope (`x`) terms. -/
def designWithSlope : DesignInfo :=
  { term_name_slices := [("Intercept", ⟨0, 1⟩), ("x", ⟨1, 2⟩)],
    column_names := ["Intercept", "x"] }

/-- One element of a saved YATSM result record array, as consumed by
`scripts/yatsm_map.py` and `yatsm/cli/train_mult.py` (fields `start`, `end`,
`break` — rendered `brk` —, `coef` of shape (number of coefficients × number
of bands), `rmse` per band, `px`, `py`). -/
structure MapRecord where
  start : Int
  end_ : Int
  brk : Int
  coef : List (List ℚ)
  rmse : List ℚ
  px : Nat
  py : Nat
  deriving DecidableEq, Repr

/-- Helper for `npWhere`: indices (offset by `k`) of the elements satisfying
the condition. -/
def npWhereAux {α : Type} (p : α → Bool) : Nat → List α → List Nat
  | _, [] => []
  | i, r :: rs =>
      if p r then i :: npWhereAux p (i + 1) rs else npWhereAux p (i + 1) rs

/-- `np.where(condition(arr))[0]`: the indices, in increasing order, of the
elements of `arr` satisfying the condition. -/
def npWhere {α : Type} (p : α → Bool) (l : List α) : List Nat :=
  npWhereAux p 0 l

/-- `record['px'][i]` (total version; every index this file applies it to is in
bounds). -/
def pxAt (rec : List MapRecord) (i : Nat) : Nat :=
  ((rec.get? i).map MapRecord.px).getD 0

/-- The `return_index` component of `np.unique(xs, return_index=True)`: the
position of the first occurrence of each distinct value of `xs`, ordered by
ascending value. -/
def np_unique_firstIdx (xs : List Nat) : List Nat :=
  (List.insertionSort (· ≤ ·) xs.dedup).map (fun v => xs.indexOf v)

/-- The `before` branch of `find_indices`:
`np.where((record['end'] <= date) & (record['break'] == 0))[0]`. -/
def beforeIndices (rec : List MapRecord) (date : Int) : List Nat :=
  npWhere (fun r => decide (r.end_ ≤ date) && decide (r.brk = 0)) rec

/-- First line of the `after` branch of `find_indices`:
`index = np.where(record['start'] >= date)[0]`. -/
def afterMatches (rec : List MapRecord) (date : Int) : List Nat :=
  npWhere (fun r => decide (date ≤ r.start)) rec

/-- The `after` branch of `find_indices`: `afterMatches` reduced by
`_, _index = np.unique(record['px'][index], return_index=True)` and
`index = index[_index]` to the first matching segment per pixel
x-coordinate. -/
def afterIndices (rec : List MapRecord) (date : Int) : List Nat :=
  (np_unique_firstIdx ((afterMatches rec date).map (pxAt rec))).map
    (fun j => (afterMatches rec date).getD j 0)

/-- The final branch of `find_indices`:
`np.where((record['start'] <= date) & (record['end'] >= date))[0]`. -/
def intersectIndices (rec : List MapRecord) (date : Int) : List Nat :=
  npWhere (fun r => decide (r.start ≤ date) && decide (date ≤ r.end_)) rec

/-- `find_indices(record, date, after, before)` from `scripts/yatsm_map.py`:
the generator yields, in order of least desirability for overwriting, the
`before` index set (when requested), then the `after` index set (when
requested), and always last the intersecting index set.  The generator only
reads the `start`/`end`/`break`/`px` fields, which no caller mutates, so the
lazily yielded sets coincide with this eagerly computed list. -/
def find_indices (rec : List MapRecord) (date : Int)
    (after before : Bool) : List (List Nat) :=
  (if before then [beforeIndices rec date] else []) ++
  (if after then [afterIndices rec date] else []) ++
  [intersectIndices rec date]

/-- A raster held as a map from `(py, px)` pixel coordinates to the vector of
output band values at that pixel. -/
def Raster : Type := Nat × Nat → List ℚ

/-- One numpy fancy assignment `raster[py, px, ...] = v` for a single selected
record: overwrite the cell at `key`. -/
def updateCell (ras : Raster) (key : Nat × Nat) (v : List ℚ) : Raster :=
  fun k => if k = key then v else ras k

/-- The in-place midpoint normalization `get_coefficients` applies to one
selected record:
`rec[_coef][index, 0, :] += ((rec['start'][index] + rec['end'][index]) / 2.0)[:, None] * rec[_coef][index, 1, :]`.
Row 0 of `coef` is incremented, per band, by the segment midpoint
`(start + end) / 2` times row 1; all other rows are unchanged. -/
def normalizeIntercept (r : MapRecord) : MapRecord :=
  let mid : ℚ := ((r.start : ℚ) + (r.end_ : ℚ)) / 2
  let row1 := r.coef.getD 1 []
  { r with coef :=
      match r.coef with
      | [] => []
      | row0 :: rest => (List.zipWith (fun a b => a + mid * b) row0 row1) :: rest }

/-- The vectorized in-place update of the record array for one index set: each
selected record is normalized (rows of distinct records are independent, so
the vectorized numpy update equals this per-record map). -/
def normalizeStep (rec : List MapRecord) (index : List Nat) : List MapRecord :=
  rec.enum.map (fun p => if p.1 ∈ index then normalizeIntercept p.2 else p.2)

/-- One row of
`np.reshape(rec[_coef][index][:, i_coefs, :][:, :, i_bands], (index.size, n_coefs * n_bands))`:
the selected coefficients of one record in row-major (coefficient, band)
order (matching the `for _c in i_coefs: for _b in i_bands` band-name order). -/
def extractCoefs (i_coefs i_bands : List Nat) (r : MapRecord) : List ℚ :=
  (i_coefs.map (fun c => i_bands.map (fun b => (r.coef.getD c []).getD b 0))).join

/-- One row of `rec[_rmse][index][:, i_bands]`. -/
def extractRmse (i_bands : List Nat) (r : MapRecord) : List ℚ :=
  i_bands.map (fun b => r.rmse.getD b 0)

/-- The body of `for index in find_indices(...)` in `get_coefficients`: empty
index sets are skipped (`continue`); otherwise the selected records are
normalized in place, then `raster[py[index], px[index], :n_coefs * n_bands]`
receives each selected record's extracted coefficients (later records
overwriting earlier ones at a shared pixel, as numpy fancy assignment does)
and, when `use_rmse`, the trailing slice receives the extracted RMSE. -/
def processIndexSet (i_coefs i_bands : List Nat) (use_rmse : Bool)
    (st : List MapRecord × Raster) (index : List Nat) :
    List MapRecord × Raster :=
  if index.length = 0 then st
  else
    let rec' := normalizeStep st.1 index
    let ras' := index.foldl (fun ras i =>
      match rec'.get? i with
      | some r => updateCell ras (r.py, r.px)
          (extractCoefs i_coefs i_bands r ++
            (if use_rmse then extractRmse i_bands r
             else ((ras (r.py, r.px)).drop
               (i_coefs.length * i_bands.length))))
      | none => ras) st.2
    (rec', ras')

/-- The per-record-array processing loop of `get_coefficients`
(`scripts/yatsm_map.py`): fold `processIndexSet` over the index sets yielded
by `find_indices`, threading the (mutated) record array and the raster.  The
generator's lazily evaluated `np.where` calls read only the
`start`/`end`/`break`/`px` fields, which the loop never mutates, so the
eagerly computed `find_indices` list coincides with the yielded sets. -/
def get_coefficients_process (date : Int) (i_coefs i_bands : List Nat)
    (use_rmse after before : Bool) (rec : List MapRecord) (ras : Raster) :
    List MapRecord × Raster :=
  (find_indices rec date after before).foldl
    (processIndexSet i_coefs i_bands use_rmse) (rec, ras)

/-- A single-segment record array: segment `[0, 4]` with `break = 0`, one band,
intercept 10 and slope 2 (so midpoint `(0+4)/2 = 2`), RMSE 1, at pixel
`(px, py) = (0, 0)`. -/
def recDouble : List MapRecord :=
  [{ start := 0, end_ := 4, brk := 0, coef := [[10], [2]], rmse := [1],
     px := 0, py := 0 }]

/-- An all-NoDataValue initial raster with two output bands. -/
def rasterInit2 : Raster := fun _ => [-9999, -9999]

/-- The per-band prediction for one selected record in `get_prediction`:
`np.tensordot(rec['coef'][index, :][:, :, i_bands], X, axes=(1, 0))` computes,
for each output band `b ∈ i_bands`, the inner product over the feature axis of
the stored coefficient matrix with the design row `X`. -/
def predictBands (i_bands : List Nat) (coef : List (List ℚ)) (X : List ℚ) :
    List ℚ :=
  i_bands.map (fun b =>
    (List.zipWith (fun row xf => row.getD b 0 * xf) coef X).sum)

/-- One raster write of `get_prediction` for one selected record index. -/
def predWrite (rec : List MapRecord) (X : List ℚ) (i_bands : List Nat)
    (ras : Raster) (i : Nat) : Raster :=
  match rec.get? i with
  | some r => updateCell ras (r.py, r.px) (predictBands i_bands r.coef X)
  | none => ras

/-- The body of `for index in find_indices(...)` in `get_prediction`: skip
empty index sets, otherwise write each selected record's prediction. -/
def predIndexSet (rec : List MapRecord) (X : List ℚ) (i_bands : List Nat)
    (ras : Raster) (index : List Nat) : Raster :=
  if index.length = 0 then ras
  else index.foldl (predWrite rec X i_bands) ras

/-- The per-record-array processing loop of `get_prediction`
(`scripts/yatsm_map.py`).  `X = make_X(date, freq)` is the design row built
from the target date by the Design Matrix Builder (`yatsm.utils.make_X`,
outside the translated sources); it enters here as a parameter, so the
statement proved about this loop holds for whatever row the builder returns
for the date.  Nothing in this loop assigns to a field of `rec`: the record
array is read-only in `get_prediction`. -/
def get_prediction_process (date : Int) (X : List ℚ) (i_bands : List Nat)
    (after before : Bool) (rec : List MapRecord) (ras : Raster) : Raster :=
  (find_indices rec date after before).foldl
    (predIndexSet rec X i_bands) ras

/-- The matching-segment query of `get_training_inputs` (and of
`get_mult_training_inputs`), `yatsm/cli/train_mult.py`:
`i = np.where((rec['start'] < training_start) & (rec['end'] > training_end) & (rec['px'] == _col))[0]`. -/
def trainMatches (rec : List MapRecord) (training_start training_end : Int)
    (col : Nat) : List Nat :=
  npWhere (fun r =>
    decide (r.start < training_start) && decide (training_end < r.end_) &&
      decide (r.px = col)) rec

/-- The per-sample segment lookup and feature extraction of
`get_training_inputs` (`yatsm/cli/train_mult.py`): skip the sample when no
record matches (`i.size == 0`: `continue`, modelled as `.ok none`); raise
`TrainingDataException` — outside any enclosing `try`, so it propagates to
the caller — when more than one matches; otherwise build the feature row from
the single match: its coefficients with the intercept row rescaled by the
segment midpoint (`coef[0, :] = coef[0, :] + coef[1, :] * (start + end) / 2.0`,
the same update as `normalizeIntercept`, applied to the fancy-indexed copy
`rec[i]`, so the record array itself is not modified), flattened row-major and
concatenated with the record's per-band RMSE. -/
def get_training_inputs_sample (rec : List MapRecord)
    (training_start training_end : Int) (col : Nat) :
    Except PyError (Option (List ℚ)) :=
  if (trainMatches rec training_start training_end col).length = 0 then
    .ok none
  else if 1 < (trainMatches rec training_start training_end col).length then
    .error (.trainingDataException "Found more than one valid model")
  else
    match rec.get? ((trainMatches rec training_start training_end col).headD 0) with
    | some r => .ok (some ((normalizeIntercept r).coef.join ++ r.rmse))
    | none => .ok none

/-- A record matching the training query `[10, 90]` at `px = 3`. -/
def trainRecA : MapRecord :=
  { start := 0, end_ := 100, brk := 0, coef := [[10], [2]], rmse := [1],
    px := 3, py := 0 }

/-- An observation as the Change Detector sees it: its ordinal date, and
whether the combined multi-band test statistic for this observation exceeds
the configured threshold.  The statistic itself (residuals, RMSE, test bands)
is abstracted into this Boolean: the temporal segmentation skeleton depends on
nothing else. -/
structure Obs where
  date : Int
  exceeds : Bool
  deriving DecidableEq, Repr

/-- The temporal skeleton of an emitted Segment Record: its `start`, `end` and
`break` dates. -/
structure SegSpan where
  start : Int
  end_ : Int
  brk : Int
  deriving DecidableEq, Repr

/-- Modelled from the spec: the states of the Change Detector state machine of
§4.4.  The concrete detector subclass that fits models and emits segment
records is not among the included sources (`yatsm/algorithms/` holds only the
abstract base class `YATSM`), so the detector is modelled from the
specification's transition table.  `empty` is `ACCUMULATING` with no window
yet; `accum need s e` is `ACCUMULATING` with a window spanning dates
`[s, e]` that still needs `need` observations to reach `min_obs`;
`monitor s e pending` is `MONITORING` with a fitted window spanning `[s, e]`
and `pending` the dates of the current run of consecutive above-threshold
observations. -/
inductive DetState where
  | empty : DetState
  | accum (need : Nat) (s e : Int) : DetState
  | monitor (s e : Int) (pending : List Int) : DetState
  deriving DecidableEq, Repr

/-- Modelled from the spec: the Change Detector state machine of §4.4, run
over the remaining observations.  Transitions:
`ACCUMULATING → MONITORING` once the window reaches `min_obs` observations;
`MONITORING → MONITORING` incorporating a below-threshold observation
(resetting the run) or extending the run of above-threshold observations;
`MONITORING → CLOSING` once `consecutive` sequential observations all exceed
the threshold — the break date is the date of the first exceeding observation
of the run, the closed record gets `end` = the last incorporated date (the
date immediately preceding the break run) and `break` = the break date, and a
new window starts at the break date inclusive (seeded with the run's
observations); at exhaustion, `MONITORING` emits a final record with
`break = 0` and `ACCUMULATING` discards the incomplete window. -/
def runDetector (minObs consec : Nat) : List Obs → DetState → List SegSpan
  | [], DetState.monitor s e _ => [⟨s, e, 0⟩]
  | [], _ => []
  | o :: rest, DetState.empty =>
      if minObs ≤ 1 then
        runDetector minObs consec rest (DetState.monitor o.date o.date [])
      else
        runDetector minObs consec rest
          (DetState.accum (minObs - 1) o.date o.date)
  | o :: rest, DetState.accum need s _ =>
      if need ≤ 1 then
        runDetector minObs consec rest (DetState.monitor s o.date [])
      else
        runDetector minObs consec rest (DetState.accum (need - 1) s o.date)
  | o :: rest, DetState.monitor s e pending =>
      if o.exceeds then
        if (pending ++ [o.date]).length = consec then
          ⟨s, e, (pending ++ [o.date]).headD o.date⟩ ::
            (if consec < minObs then
              runDetector minObs consec rest
                (DetState.accum (minObs - consec)
                  ((pending ++ [o.date]).headD o.date) o.date)
            else
              runDetector minObs consec rest
                (DetState.monitor ((pending ++ [o.date]).headD o.date)
                  o.date []))
        else
          runDetector minObs consec rest
            (DetState.monitor s e (pending ++ [o.date]))
      else
        runDetector minObs consec rest (DetState.monitor s o.date [])

/-- Modelled from the spec: the per-pixel detector as a pure function from the
time-ordered observation sequence to the emitted sequence of segment
records (§5). -/
def detectSegments (minObs consec : Nat) (obs : List Obs) : List SegSpan :=
  runDetector minObs consec obs DetState.empty

/-- The invariant tying a detector state to the remaining observations:
window bounds are ordered, pending break-run dates lie at or after the window
end, and all remaining observations lie at or after everything seen. -/
def DetInv : DetState → List Obs → Prop
  | DetState.empty, l => List.Pairwise (fun a b : Obs => a.date ≤ b.date) l
  | DetState.accum _ s e, l =>
      s ≤ e ∧ (∀ o ∈ l, e ≤ o.date) ∧
        List.Pairwise (fun a b : Obs => a.date ≤ b.date) l
  | DetState.monitor s e pending, l =>
      s ≤ e ∧ (∀ d ∈ pending, e ≤ d) ∧
        (∀ d ∈ pending, ∀ o ∈ l, d ≤ o.date) ∧
        (∀ o ∈ l, e ≤ o.date) ∧
        List.Pairwise (fun a b : Obs => a.date ≤ b.date) l

/-- The start date any record emitted first from a given state must carry. -/
def firstStart : DetState → SegSpan → Prop
  | DetState.empty, _ => True
  | DetState.accum _ s _, r => r.start = s
  | DetState.monitor s _ _, r => r.start = s

/-- Six time-ordered observations: two quiet, two consecutive exceedances at
dates 3–4, then two quiet again. -/
def demoObs : List Obs :=
  [⟨1, false⟩, ⟨2, false⟩, ⟨3, true⟩, ⟨4, true⟩, ⟨5, false⟩, ⟨6, false⟩]

/-- C4 (counterexample): constructing the model from design information with no
slope term does not fail with a `ConfigurationError` — no such error class
exists in the sources; the constructor raises Python's `AttributeError`. -/
theorem C4_counterexample :
    isConfigurationError (YATSM.init [0] designNoSlope none none none) = false ∧
    YATSM.init [0] designNoSlope none none none =
      .error (.attributeError "Design info must specify x (slope)") := by
  constructor
  · rfl
  · rfl

/-- C4 (amended): constructing the model with design information containing no
term named `x` fails, before anything else is computed, by raising an
`AttributeError` (the condition the specification's taxonomy calls
`ConfigurationError`) — whatever the other arguments; when a slope term is
present, plain construction (no `px`/`py` keyword argument, the only path on
which the trailing `super().__init__(**kwargs)` call does not abort the
constructor) succeeds and `i_x` exposes the slope column's index (the start
of the `x` term's slice). -/
theorem C4_slope_term (fit : List Nat) (d : DesignInfo)
    (ti : Option (List Nat)) (px py : Option Nat) :
    (d.slice? "x" = none →
      ∃ msg, YATSM.init fit d ti px py = .error (.attributeError msg)) ∧
    (∀ s, d.slice? "x" = some s → px = none → py = none →
      ∃ m, YATSM.init fit d ti px py = .ok m ∧ m.i_x = s.start) := by
  constructor
  · intro h
    exact ⟨"Design info must specify x (slope)", by simp [YATSM.init, h]⟩
  · intro s h hpx hpy
    subst hpx
    subst hpy
    unfold YATSM.init
    rw [h]
    exact ⟨_, rfl, rfl⟩

/-- C4 (witness): both branches of `C4_slope_term` at concrete inputs. -/
theorem C4_slope_term_witness :
    (∃ msg, YATSM.init [0] designNoSlope none none none =
      .error (.attributeError msg)) ∧
    (∃ m, YATSM.init [0] designWithSlope none none none = .ok m ∧
      m.i_x = 1) :=
  ⟨(C4_slope_term [0] designNoSlope none none none).1 rfl,
   (C4_slope_term [0] designWithSlope none none none).2 ⟨1, 2⟩ rfl rfl rfl⟩

/-- C8: whenever construction succeeds, the record template is a single record
whose `coef` entry has exactly one row per design column and one column per
fitted band: shape `(len(design_info.column_names), len(fit_indices))`. -/
theorem C8_coef_shape (fit : List Nat) (d : DesignInfo)
    (ti : Option (List Nat)) (px py : Option Nat) (m : YATSM)
    (h : YATSM.init fit d ti px py = .ok m) :
    ∃ t, m.record_template = [t] ∧
      t.coef.length = d.column_names.length ∧
      ∀ row ∈ t.coef, row.length = fit.length := by
  unfold YATSM.init at h
  cases hx : d.slice? "x" with
  | none => rw [hx] at h; exact absurd h (by simp)
  | some s =>
      rw [hx] at h
      cases px with
      | some v =>
          rw [show ((some v).isSome || py.isSome) = true by simp] at h
          exact absurd h (by simp)
      | none =>
          cases py with
          | some w =>
              rw [show ((none : Option Nat).isSome || (some w).isSome) = true
                by simp] at h
              exact absurd h (by simp)
          | none =>
              cases h
              refine ⟨_, rfl, ?_, ?_⟩
              · simp [zeroMatrix]
              · intro row hrow
                simp [zeroMatrix] at hrow
                simp [hrow]

/-- C8 (witness): `C8_coef_shape` at a concrete construction. -/
theorem C8_coef_shape_witness :
    ∃ t, (YATSM.init [2, 3, 4] designWithSlope none none none).toOption.map
        YATSM.record_template = some [t] ∧
      t.coef.length = designWithSlope.column_names.length ∧
      ∀ row ∈ t.coef, row.length = ([2, 3, 4] : List Nat).length := by
  obtain ⟨m, hm⟩ : ∃ m,
      YATSM.init [2, 3, 4] designWithSlope none none none = .ok m := ⟨_, rfl⟩
  obtain ⟨t, ht, h1, h2⟩ :=
    C8_coef_shape [2, 3, 4] designWithSlope none none none m hm
  exact ⟨t, by rw [hm]; simp [Except.toOption, ht], h1, h2⟩

/-- C9 (code bug): constructed with `test_indices=None`, the model's
`test_indices` attribute is `np.asarray(None)` — a 0-d object array holding
`None` — and not `fit_indices`: the `is None` check on the array is always
false, contradicting the docstring "If not provided, all `fit_indices` will be
used as test indices". -/
theorem C9_test_indices_bug :
    ∃ m, YATSM.init [0, 1, 2] designWithSlope none none none = .ok m ∧
      m.test_indices = NpIndexArray.objNone ∧
      m.fit_indices = [0, 1, 2] ∧
      m.test_indices ≠ NpIndexArray.ofList m.fit_indices := by
  refine ⟨_, rfl, rfl, rfl, by decide⟩

/-- C10 (counterexample): constructing with the keyword argument `px = 5`
never yields a model at all — `kwargs.get` reads but does not remove the key,
so the keyword arguments reach `object.__init__` (yatsm.py:59), which raises
`TypeError` because `__new__` is not overridden.  The claim's "px and py set
from the constructor's keyword arguments" is therefore unobservable: no
record store exists after such a construction. -/
theorem C10_counterexample :
    YATSM.init [0, 1] designWithSlope none (some 5) none =
      .error (.typeError "object.__init__() takes no parameters") ∧
    isOkResult (YATSM.init [0, 1] designWithSlope none (some 5) none) =
      false := by
  constructor
  · rfl
  · rfl

/-- C10 (amended): construction completes only when the `px`/`py` keyword
arguments are omitted (any supplied keyword argument makes the trailing
`super().__init__(**kwargs)` call raise `TypeError`); immediately after such a
successful construction, before any fitting, the record store holds exactly
one zero-initialized record: `__len__` returns 1, and the single record has
`start = end = break = 0`, a zero coefficient matrix, and `px = py = 0` (the
defaults). -/
theorem C10_initial_record (fit : List Nat) (d : DesignInfo)
    (ti : Option (List Nat)) (px py : Option Nat) (m : YATSM)
    (h : YATSM.init fit d ti px py = .ok m) :
    px = none ∧ py = none ∧
    m.len = 1 ∧
    m.record = [{ start := 0, end_ := 0, brk := 0,
                  coef := zeroMatrix d.column_names.length fit.length,
                  px := 0, py := 0 }] := by
  unfold YATSM.init at h
  cases hx : d.slice? "x" with
  | none => rw [hx] at h; exact absurd h (by simp)
  | some s =>
      rw [hx] at h
      cases px with
      | some v =>
          rw [show ((some v).isSome || py.isSome) = true by simp] at h
          exact absurd h (by simp)
      | none =>
          cases py with
          | some w =>
              rw [show ((none : Option Nat).isSome || (some w).isSome) = true
                by simp] at h
              exact absurd h (by simp)
          | none =>
              cases h
              refine ⟨rfl, rfl, rfl, ?_⟩
              simp

/-- C10 (witness): `C10_initial_record` at a concrete construction with both
keyword arguments omitted. -/
theorem C10_initial_record_witness :
    ∃ m, YATSM.init [0, 1] designWithSlope none none none = .ok m ∧
      m.len = 1 ∧
      m.record = [{ start := 0, end_ := 0, brk := 0,
                    coef := zeroMatrix 2 2, px := 0, py := 0 }] := by
  obtain ⟨m, hm⟩ : ∃ m,
      YATSM.init [0, 1] designWithSlope none none none = .ok m := ⟨_, rfl⟩
  obtain ⟨_, _, h1, h2⟩ := C10_initial_record [0, 1] designWithSlope none none
    none m hm
  exact ⟨m, hm, h1, h2⟩

theorem npWhereAux_lower {α : Type} (p : α → Bool) :
    ∀ (l : List α) (k i : Nat), i ∈ npWhereAux p k l → k ≤ i := by
  intro l
  induction l with
  | nil => intro k i h; simp [npWhereAux] at h
  | cons r rs ih =>
      intro k i h
      simp only [npWhereAux] at h
      by_cases hp : p r
      · rw [if_pos hp] at h
        rcases List.mem_cons.mp h with h | h
        · exact h ▸ Nat.le_refl k
        · exact Nat.le_of_succ_le (ih (k + 1) i h)
      · rw [if_neg hp] at h
        exact Nat.le_of_succ_le (ih (k + 1) i h)

theorem npWhereAux_sorted {α : Type} (p : α → Bool) :
    ∀ (l : List α) (k : Nat), List.Pairwise (· < ·) (npWhereAux p k l) := by
  intro l
  induction l with
  | nil => intro k; simp [npWhereAux]
  | cons r rs ih =>
      intro k
      simp only [npWhereAux]
      by_cases hp : p r
      · rw [if_pos hp]
        refine List.pairwise_cons.mpr ⟨?_, ih (k + 1)⟩
        intro i hi
        exact Nat.lt_of_succ_le (npWhereAux_lower p rs (k + 1) i hi)
      · rw [if_neg hp]
        exact ih (k + 1)

theorem npWhereAux_mem {α : Type} (p : α → Bool) :
    ∀ (l : List α) (k i : Nat),
      i ∈ npWhereAux p k l ↔
        ∃ j r, i = k + j ∧ l.get? j = some r ∧ p r = true := by
  intro l
  induction l with
  | nil => intro k i; simp [npWhereAux]
  | cons r rs ih =>
      intro k i
      simp only [npWhereAux]
      constructor
      · intro h
        by_cases hp : p r
        · rw [if_pos hp] at h
          rcases List.mem_cons.mp h with h | h
          · exact ⟨0, r, by omega, rfl, hp⟩
          · obtain ⟨j, r', hij, hget, hpr⟩ := (ih (k + 1) i).mp h
            exact ⟨j + 1, r', by omega, by simpa using hget, hpr⟩
        · rw [if_neg hp] at h
          obtain ⟨j, r', hij, hget, hpr⟩ := (ih (k + 1) i).mp h
          exact ⟨j + 1, r', by omega, by simpa using hget, hpr⟩
      · rintro ⟨j, r', hij, hget, hpr⟩
        cases j with
        | zero =>
            simp only [List.get?] at hget
            cases hget
            rw [if_pos hpr]
            have hik : i = k := by omega
            rw [hik]
            exact List.mem_cons_self _ _
        | succ j' =>
            have h' : i ∈ npWhereAux p (k + 1) rs :=
              (ih (k + 1) i).mpr ⟨j', r', by omega, by simpa using hget, hpr⟩
            by_cases hp : p r
            · rw [if_pos hp]; exact List.mem_cons_of_mem _ h'
            · rw [if_neg hp]; exact h'

theorem npWhere_mem {α : Type} (p : α → Bool) (l : List α) (i : Nat) :
    i ∈ npWhere p l ↔ ∃ r, l.get? i = some r ∧ p r = true := by
  rw [npWhere, npWhereAux_mem]
  constructor
  · rintro ⟨j, r, hij, hget, hpr⟩
    exact ⟨r, by simpa [hij] using hget, hpr⟩
  · rintro ⟨r, hget, hpr⟩
    exact ⟨i, r, by omega, hget, hpr⟩

theorem indexOf_min {α : Type} [DecidableEq α] (a : α) :
    ∀ (l : List α) (m : Nat) (hm : m < l.length),
      l.get ⟨m, hm⟩ = a → l.indexOf a ≤ m := by
  intro l
  induction l with
  | nil => intro m hm _; simp at hm
  | cons b t ih =>
      intro m hm h
      by_cases hba : b = a
      · simp [List.indexOf_cons_eq _ hba]
      · cases m with
        | zero => exact absurd (by simpa using h) hba
        | succ m' =>
            rw [List.indexOf_cons_ne _ hba]
            exact Nat.succ_le_succ (ih m' (by simpa using hm) (by simpa using h))

theorem sortedIdx_get_le {l : List Nat} (h : List.Pairwise (· < ·) l)
    (k m : Fin l.length) (hkm : (k : Nat) ≤ (m : Nat)) : l.get k ≤ l.get m := by
  rcases Nat.lt_or_ge (k : Nat) (m : Nat) with hlt | hge
  · exact Nat.le_of_lt (List.pairwise_iff_get.mp h k m hlt)
  · have hkm' : k = m := Fin.ext (Nat.le_antisymm hkm hge)
    rw [hkm']

theorem afterIndices_mem_raw (rec : List MapRecord) (date : Int) (i : Nat) :
    i ∈ afterIndices rec date ↔
      ∃ v, v ∈ (afterMatches rec date).map (pxAt rec) ∧
        (afterMatches rec date).getD
          (((afterMatches rec date).map (pxAt rec)).indexOf v) 0 = i := by
  simp only [afterIndices, np_unique_firstIdx, List.mem_map,
    List.mem_insertionSort, List.mem_dedup]
  constructor
  · rintro ⟨j, ⟨v, hv, rfl⟩, hji⟩
    exact ⟨v, hv, hji⟩
  · rintro ⟨v, hv, hvi⟩
    exact ⟨_, ⟨v, hv, rfl⟩, hvi⟩

/-- Extensional description of the `after` index set: exactly the first
matching segment (least record index with `start ≥ date`) per pixel
x-coordinate. -/
theorem afterIndices_mem (rec : List MapRecord) (date : Int) (i : Nat) :
    i ∈ afterIndices rec date ↔
      ∃ r, rec.get? i = some r ∧ date ≤ r.start ∧
        ∀ j r', rec.get? j = some r' → date ≤ r'.start → r'.px = r.px →
          i ≤ j := by
  have hsorted : List.Pairwise (· < ·) (afterMatches rec date) :=
    npWhereAux_sorted _ rec 0
  have hpxAt : ∀ j r', rec.get? j = some r' → pxAt rec j = r'.px := by
    intro j r' h
    unfold pxAt
    rw [h]
    rfl
  rw [afterIndices_mem_raw]
  set A := afterMatches rec date with hA
  set pxs := A.map (pxAt rec) with hpxs
  have hlen : pxs.length = A.length := by rw [hpxs]; exact List.length_map _ _
  have hmapget : ∀ (m : Nat) (hm2 : m < pxs.length) (hm : m < A.length),
      pxs.get ⟨m, hm2⟩ = pxAt rec (A.get ⟨m, hm⟩) := by
    intro m hm2 hm
    simp [hpxs, List.get_eq_getElem, List.getElem_map]
  constructor
  · rintro ⟨v, hv, hvi⟩
    have hk : pxs.indexOf v < pxs.length := List.indexOf_lt_length.mpr hv
    have hk' : pxs.indexOf v < A.length := hlen ▸ hk
    have hi : i = A.get ⟨pxs.indexOf v, hk'⟩ := by
      rw [← hvi, List.getD_eq_get _ _ hk']
    have himem : i ∈ A := hi ▸ List.get_mem _ _ _
    obtain ⟨r, hri, hpr⟩ := (npWhere_mem _ _ _).mp himem
    have hrs : date ≤ r.start := of_decide_eq_true hpr
    have hvk : pxs.get ⟨pxs.indexOf v, hk⟩ = v := List.indexOf_get hk
    have hvr : v = r.px := by
      rw [← hvk, hmapget _ hk hk', ← hi]
      exact hpxAt i r hri
    refine ⟨r, hri, hrs, ?_⟩
    intro j r' hj hjs hpx
    have hjmem : j ∈ A :=
      (npWhere_mem _ _ _).mpr ⟨r', hj, decide_eq_true hjs⟩
    obtain ⟨⟨m, hm⟩, hmj⟩ := List.mem_iff_get.mp hjmem
    have hm2 : m < pxs.length := hlen ▸ hm
    have hpxm : pxs.get ⟨m, hm2⟩ = v := by
      rw [hmapget _ hm2 hm, hmj, hpxAt j r' hj, hpx, hvr]
    have hkm : pxs.indexOf v ≤ m := indexOf_min v pxs m hm2 hpxm
    have hle := sortedIdx_get_le hsorted ⟨pxs.indexOf v, hk'⟩ ⟨m, hm⟩ hkm
    rw [← hi, hmj] at hle
    exact hle
  · rintro ⟨r, hri, hrs, hmin⟩
    have himem : i ∈ A :=
      (npWhere_mem _ _ _).mpr ⟨r, hri, decide_eq_true hrs⟩
    obtain ⟨⟨k, hk⟩, hki⟩ := List.mem_iff_get.mp himem
    have hk2 : k < pxs.length := hlen ▸ hk
    have hvr : pxs.get ⟨k, hk2⟩ = r.px := by
      rw [hmapget _ hk2 hk, hki]
      exact hpxAt i r hri
    have hvmem : pxs.get ⟨k, hk2⟩ ∈ pxs := List.get_mem _ _ _
    have hk0 : pxs.indexOf (pxs.get ⟨k, hk2⟩) < pxs.length :=
      List.indexOf_lt_length.mpr hvmem
    have hk0' : pxs.indexOf (pxs.get ⟨k, hk2⟩) < A.length := hlen ▸ hk0
    have hk0le : pxs.indexOf (pxs.get ⟨k, hk2⟩) ≤ k :=
      indexOf_min _ pxs k hk2 rfl
    have hkeq : pxs.indexOf (pxs.get ⟨k, hk2⟩) = k := by
      rcases Nat.lt_or_ge (pxs.indexOf (pxs.get ⟨k, hk2⟩)) k with hlt | hge
      · exfalso
        have hjmem : A.get ⟨pxs.indexOf (pxs.get ⟨k, hk2⟩), hk0'⟩ ∈ A :=
          List.get_mem _ _ _
        obtain ⟨r'', hj, hp''⟩ := (npWhere_mem _ _ _).mp hjmem
        have hpxj : pxs.get ⟨pxs.indexOf (pxs.get ⟨k, hk2⟩), hk0⟩ =
            pxs.get ⟨k, hk2⟩ := List.indexOf_get hk0
        have hpx'' : r''.px = r.px := by
          rw [← hpxAt _ r'' hj, ← hmapget _ hk0 hk0', hpxj, hvr]
        have hij : i ≤ A.get ⟨pxs.indexOf (pxs.get ⟨k, hk2⟩), hk0'⟩ :=
          hmin _ r'' hj (of_decide_eq_true hp'') hpx''
        have hji : A.get ⟨pxs.indexOf (pxs.get ⟨k, hk2⟩), hk0'⟩ < i := by
          rw [← hki]
          exact List.pairwise_iff_get.mp hsorted _ _ hlt
        omega
      · exact Nat.le_antisymm hk0le hge
    refine ⟨pxs.get ⟨k, hk2⟩, hvmem, ?_⟩
    rw [hkeq, List.getD_eq_get _ _ hk]
    exact hki

/-- C6: `find_indices` yields the candidate index sets in least-desirable-first
order — the `before` set exactly when requested, then the `after` set exactly
when requested, and always last the intersecting set — where the `before` set
holds exactly the records with `end ≤ date` and `break = 0`, the `after` set
holds, for each pixel x-coordinate, the first record with `start ≥ date`, and
the intersecting set holds exactly the records with `start ≤ date ≤ end`. -/
theorem C6_find_indices_sets (rec : List MapRecord) (date : Int)
    (after before : Bool) :
    (find_indices rec date after before =
      (if before then [beforeIndices rec date] else []) ++
      (if after then [afterIndices rec date] else []) ++
      [intersectIndices rec date]) ∧
    (∀ i, i ∈ beforeIndices rec date ↔
      ∃ r, rec.get? i = some r ∧ r.end_ ≤ date ∧ r.brk = 0) ∧
    (∀ i, i ∈ afterIndices rec date ↔
      ∃ r, rec.get? i = some r ∧ date ≤ r.start ∧
        ∀ j r', rec.get? j = some r' → date ≤ r'.start → r'.px = r.px →
          i ≤ j) ∧
    (∀ i, i ∈ intersectIndices rec date ↔
      ∃ r, rec.get? i = some r ∧ r.start ≤ date ∧ date ≤ r.end_) := by
  refine ⟨rfl, ?_, afterIndices_mem rec date, ?_⟩
  · intro i
    rw [beforeIndices, npWhere_mem]
    constructor
    · rintro ⟨r, hr, hpr⟩
      rcases Bool.and_eq_true_iff.mp hpr with ⟨h1, h2⟩
      exact ⟨r, hr, of_decide_eq_true h1, of_decide_eq_true h2⟩
    · rintro ⟨r, hr, h1, h2⟩
      exact ⟨r, hr, Bool.and_eq_true_iff.mpr
        ⟨decide_eq_true h1, decide_eq_true h2⟩⟩
  · intro i
    rw [intersectIndices, npWhere_mem]
    constructor
    · rintro ⟨r, hr, hpr⟩
      rcases Bool.and_eq_true_iff.mp hpr with ⟨h1, h2⟩
      exact ⟨r, hr, of_decide_eq_true h1, of_decide_eq_true h2⟩
    · rintro ⟨r, hr, h1, h2⟩
      exact ⟨r, hr, Bool.and_eq_true_iff.mpr
        ⟨decide_eq_true h1, decide_eq_true h2⟩⟩

/-- C1 (code bug): exporting coefficients at `date = 4` with `before`
requested selects the single record of `recDouble` both in the `before` set
(`end ≤ date`, `break = 0`) and in the intersecting set
(`start ≤ date ≤ end`), and the in-place normalization runs once per
selection: the intercept finally written is
`coef0 + 2 · slope · (start+end)/2 = 18`, not the exactly-once value
`coef0 + slope · (start+end)/2 = 14` stated by the claim (the slope output, 2,
is unchanged). -/
theorem C1_double_normalization :
    (get_coefficients_process 4 [0, 1] [0] false false true recDouble
        rasterInit2).2 (0, 0) = [18, 2] ∧
    (18 : ℚ) = 10 + 2 * 2 * (((0 : ℚ) + 4) / 2) ∧
    (18 : ℚ) ≠ 10 + 2 * (((0 : ℚ) + 4) / 2) := by
  refine ⟨?_, by norm_num, by norm_num⟩
  norm_num [get_coefficients_process, find_indices, beforeIndices,
    intersectIndices, npWhere, npWhereAux, processIndexSet, normalizeStep,
    normalizeIntercept, extractCoefs, extractRmse, updateCell, recDouble,
    rasterInit2, List.enum, List.enumFrom]

/-- C2 (code bug): exporting coefficients is not a pure read-side transform —
after processing `recDouble` at `date = 2` (a single, intersecting selection),
the loaded record array's `coef` field holds the midpoint-normalized
intercept `10 + 2 · 2 = 14` in place of the raw stored value 10: the record
was mutated by the export. -/
theorem C2_record_mutated :
    ((get_coefficients_process 2 [0, 1] [0] false false false recDouble
        rasterInit2).1.map MapRecord.coef) = [[[14], [2]]] ∧
    (get_coefficients_process 2 [0, 1] [0] false false false recDouble
        rasterInit2).1 ≠ recDouble := by
  constructor
  · norm_num [get_coefficients_process, find_indices, intersectIndices,
      npWhere, npWhereAux, processIndexSet, normalizeStep,
      normalizeIntercept, recDouble, List.enum, List.enumFrom]
  · intro h
    have hc : ((get_coefficients_process 2 [0, 1] [0] false false false
        recDouble rasterInit2).1.map MapRecord.coef) =
        recDouble.map MapRecord.coef := by rw [h]
    rw [show ((get_coefficients_process 2 [0, 1] [0] false false false
        recDouble rasterInit2).1.map MapRecord.coef) = [[[14], [2]]] from ?_] at hc
    · simp [recDouble] at hc
    · norm_num [get_coefficients_process, find_indices, intersectIndices,
        npWhere, npWhereAux, processIndexSet, normalizeStep,
        normalizeIntercept, recDouble, List.enum, List.enumFrom]

theorem predWrite_char (rec : List MapRecord) (X : List ℚ)
    (i_bands : List Nat) :
    ∀ (index : List Nat) (ras : Raster) (p : Nat × Nat),
      (index.foldl (predWrite rec X i_bands) ras) p = ras p ∨
      ∃ i r, i ∈ index ∧ rec.get? i = some r ∧ p = (r.py, r.px) ∧
        (index.foldl (predWrite rec X i_bands) ras) p =
          predictBands i_bands r.coef X := by
  intro index
  induction index with
  | nil => intro ras p; exact Or.inl rfl
  | cons i rest ih =>
      intro ras p
      rw [List.foldl_cons]
      rcases ih (predWrite rec X i_bands ras i) p with h | ⟨i', r', hi', hr', hp', hv'⟩
      · rw [h]
        cases hri : rec.get? i with
        | none =>
            left
            unfold predWrite
            rw [hri]
        | some r =>
            by_cases hp : p = (r.py, r.px)
            · right
              refine ⟨i, r, List.mem_cons_self _ _, hri, hp, ?_⟩
              unfold predWrite
              rw [hri]
              simp [updateCell, hp]
            · left
              unfold predWrite
              rw [hri]
              simp [updateCell, hp]
      · right
        exact ⟨i', r', List.mem_cons_of_mem _ hi', hr', hp', hv'⟩

theorem predIndexSet_char (rec : List MapRecord) (X : List ℚ)
    (i_bands : List Nat) (index : List Nat) (ras : Raster) (p : Nat × Nat) :
    predIndexSet rec X i_bands ras index p = ras p ∨
    ∃ i r, i ∈ index ∧ rec.get? i = some r ∧ p = (r.py, r.px) ∧
      predIndexSet rec X i_bands ras index p =
        predictBands i_bands r.coef X := by
  unfold predIndexSet
  by_cases h0 : index.length = 0
  · rw [if_pos h0]; exact Or.inl rfl
  · rw [if_neg h0]; exact predWrite_char rec X i_bands index ras p

theorem predSets_char (rec : List MapRecord) (X : List ℚ)
    (i_bands : List Nat) :
    ∀ (sets : List (List Nat)) (ras : Raster) (p : Nat × Nat),
      (sets.foldl (predIndexSet rec X i_bands) ras) p = ras p ∨
      ∃ i r, (∃ s ∈ sets, i ∈ s) ∧ rec.get? i = some r ∧ p = (r.py, r.px) ∧
        (sets.foldl (predIndexSet rec X i_bands) ras) p =
          predictBands i_bands r.coef X := by
  intro sets
  induction sets with
  | nil => intro ras p; exact Or.inl rfl
  | cons s rest ih =>
      intro ras p
      rw [List.foldl_cons]
      rcases ih (predIndexSet rec X i_bands ras s) p with h | ⟨i', r', ⟨s', hs', hi'⟩, hr', hp', hv'⟩
      · rw [h]
        rcases predIndexSet_char rec X i_bands s ras p with h2 | ⟨i, r, hi, hr, hp, hv⟩
        · left; exact h2
        · right; exact ⟨i, r, ⟨s, List.mem_cons_self _ _, hi⟩, hr, hp, hv⟩
      · right
        exact ⟨i', r', ⟨s', List.mem_cons_of_mem _ hs', hi'⟩, hr', hp', hv'⟩

/-- C3: every cell of the raster produced by `get_prediction` either keeps its
previous value or holds, for some record selected by the date-based lookup
whose `(py, px)` matches the cell, exactly the inner products
`ŷ_b = Σ_f coef[f][b] · X[f]` of that record's stored coefficient matrix (as
it stands in the input record array — no midpoint normalization is applied
anywhere in this loop) with the design row `X` built from the target date. -/
theorem C3_prediction (date : Int) (X : List ℚ) (i_bands : List Nat)
    (after before : Bool) (rec : List MapRecord) (ras : Raster)
    (p : Nat × Nat) :
    get_prediction_process date X i_bands after before rec ras p = ras p ∨
    ∃ i r, (∃ s ∈ find_indices rec date after before, i ∈ s) ∧
      rec.get? i = some r ∧ p = (r.py, r.px) ∧
      get_prediction_process date X i_bands after before rec ras p =
        i_bands.map (fun b =>
          (List.zipWith (fun row xf => row.getD b 0 * xf) r.coef X).sum) :=
  predSets_char rec X i_bands (find_indices rec date after before) ras p

/-- C5: when more than one stored segment record matches the training query
(start before the training start, end after the training end, same pixel
x-coordinate), the lookup raises `TrainingDataException` — surfaced to the
caller, no record is silently chosen; when exactly one record matches, its
coefficients (midpoint-rescaled intercept) and RMSE form the feature row. -/
theorem C5_ambiguous_lookup (rec : List MapRecord)
    (training_start training_end : Int) (col : Nat) :
    (1 < (trainMatches rec training_start training_end col).length →
      ∃ msg, get_training_inputs_sample rec training_start training_end col =
        .error (.trainingDataException msg)) ∧
    (∀ i r, trainMatches rec training_start training_end col = [i] →
      rec.get? i = some r →
      get_training_inputs_sample rec training_start training_end col =
        .ok (some ((normalizeIntercept r).coef.join ++ r.rmse))) := by
  constructor
  · intro h
    refine ⟨"Found more than one valid model", ?_⟩
    unfold get_training_inputs_sample
    rw [if_neg (by omega), if_pos h]
  · intro i r hi hr
    unfold get_training_inputs_sample
    rw [hi]
    simp only [List.length_singleton, List.headD]
    rw [if_neg (by omega), if_neg (by omega), hr]

/-- C5 (witness): both branches of `C5_ambiguous_lookup` at concrete inputs —
two matching records raise, one matching record yields its midpoint-rescaled
coefficients (`10 + 2 · 50 = 110`, slope 2) followed by the RMSE 1. -/
theorem C5_ambiguous_lookup_witness :
    (∃ msg, get_training_inputs_sample [trainRecA, trainRecA] 10 90 3 =
      .error (.trainingDataException msg)) ∧
    get_training_inputs_sample [trainRecA] 10 90 3 =
      .ok (some [110, 2, 1]) := by
  constructor
  · exact (C5_ambiguous_lookup [trainRecA, trainRecA] 10 90 3).1
      (by decide)
  · rw [(C5_ambiguous_lookup [trainRecA] 10 90 3).2 0 trainRecA
      (by decide) rfl]
    norm_num [normalizeIntercept, trainRecA]

theorem headD_append_mem (pending : List Int) (d : Int) :
    (pending ++ [d]).headD d ∈ pending ++ [d] := by
  cases pending with
  | nil => simp
  | cons p ps => simp

theorem runDetector_sound (minObs consec : Nat) :
    ∀ (l : List Obs) (st : DetState), DetInv st l →
      (∀ r ∈ runDetector minObs consec l st, r.start ≤ r.end_) ∧
      List.Chain' (fun a b => a.end_ ≤ b.start)
        (runDetector minObs consec l st) ∧
      (∀ r, (runDetector minObs consec l st).head? = some r →
        firstStart st r) := by
  intro l
  induction l with
  | nil =>
      intro st hinv
      cases st with
      | empty =>
          refine ⟨?_, ?_, ?_⟩ <;> simp [runDetector]
      | accum need s e =>
          refine ⟨?_, ?_, ?_⟩ <;> simp [runDetector]
      | monitor s e pending =>
          refine ⟨?_, ?_, ?_⟩
          · intro r hr
            rw [show runDetector minObs consec [] (DetState.monitor s e pending)
              = [⟨s, e, 0⟩] from rfl] at hr
            rw [List.mem_singleton.mp hr]
            exact hinv.1
          · rw [show runDetector minObs consec [] (DetState.monitor s e pending)
              = [⟨s, e, 0⟩] from rfl]
            exact List.chain'_singleton _
          · intro r hr
            rw [show runDetector minObs consec [] (DetState.monitor s e pending)
              = [⟨s, e, 0⟩] from rfl] at hr
            simp only [List.head?_cons, Option.some.injEq] at hr
            rw [← hr]
            rfl
  | cons o rest ih =>
      intro st hinv
      cases st with
      | empty =>
          obtain ⟨hp, hrest⟩ := List.pairwise_cons.mp hinv
          simp only [runDetector]
          by_cases h1 : minObs ≤ 1
          · rw [if_pos h1]
            have hinv' : DetInv (DetState.monitor o.date o.date []) rest := by
              refine ⟨le_refl _, ?_, ?_, ?_, hrest⟩
              · intro d hd; exact absurd hd (List.not_mem_nil d)
              · intro d hd; exact absurd hd (List.not_mem_nil d)
              · intro o' ho'; exact hp o' ho'
            obtain ⟨g1, g2, _⟩ := ih _ hinv'
            exact ⟨g1, g2, fun r _ => trivial⟩
          · rw [if_neg h1]
            have hinv' : DetInv
                (DetState.accum (minObs - 1) o.date o.date) rest := by
              refine ⟨le_refl _, ?_, hrest⟩
              intro o' ho'; exact hp o' ho'
            obtain ⟨g1, g2, _⟩ := ih _ hinv'
            exact ⟨g1, g2, fun r _ => trivial⟩
      | accum need s e =>
          obtain ⟨hse, hl, hsorted⟩ := hinv
          obtain ⟨hp, hrest⟩ := List.pairwise_cons.mp hsorted
          have hso : s ≤ o.date :=
            le_trans hse (hl o (List.mem_cons_self _ _))
          simp only [runDetector]
          by_cases h1 : need ≤ 1
          · rw [if_pos h1]
            have hinv' : DetInv (DetState.monitor s o.date []) rest := by
              refine ⟨hso, ?_, ?_, ?_, hrest⟩
              · intro d hd; exact absurd hd (List.not_mem_nil d)
              · intro d hd; exact absurd hd (List.not_mem_nil d)
              · intro o' ho'; exact hp o' ho'
            obtain ⟨g1, g2, g3⟩ := ih _ hinv'
            refine ⟨g1, g2, ?_⟩
            intro r hr
            exact g3 r hr
          · rw [if_neg h1]
            have hinv' : DetInv (DetState.accum (need - 1) s o.date) rest := by
              refine ⟨hso, ?_, hrest⟩
              intro o' ho'; exact hp o' ho'
            obtain ⟨g1, g2, g3⟩ := ih _ hinv'
            refine ⟨g1, g2, ?_⟩
            intro r hr
            exact g3 r hr
      | monitor s e pending =>
          obtain ⟨hse, hpend, hpendl, hl, hsorted⟩ := hinv
          obtain ⟨hp, hrest⟩ := List.pairwise_cons.mp hsorted
          have heo : e ≤ o.date := hl o (List.mem_cons_self _ _)
          have hpendo : ∀ d ∈ pending, d ≤ o.date := by
            intro d hd
            exact hpendl d hd o (List.mem_cons_self _ _)
          have hpend' : ∀ d ∈ pending ++ [o.date], e ≤ d := by
            intro d hd
            rcases List.mem_append.mp hd with hd | hd
            · exact hpend d hd
            · rw [List.mem_singleton.mp hd]; exact heo
          have hpendo' : ∀ d ∈ pending ++ [o.date], d ≤ o.date := by
            intro d hd
            rcases List.mem_append.mp hd with hd | hd
            · exact hpendo d hd
            · rw [List.mem_singleton.mp hd]
          have hb_mem := headD_append_mem pending o.date
          have heb : e ≤ (pending ++ [o.date]).headD o.date :=
            hpend' _ hb_mem
          have hbo : (pending ++ [o.date]).headD o.date ≤ o.date :=
            hpendo' _ hb_mem
          simp only [runDetector]
          by_cases hex : o.exceeds = true
          · rw [if_pos hex]
            by_cases hlen : (pending ++ [o.date]).length = consec
            · rw [if_pos hlen]
              by_cases hcm : consec < minObs
              · rw [if_pos hcm]
                have hinv' : DetInv
                    (DetState.accum (minObs - consec)
                      ((pending ++ [o.date]).headD o.date) o.date) rest := by
                  refine ⟨hbo, ?_, hrest⟩
                  intro o' ho'; exact hp o' ho'
                obtain ⟨g1, g2, g3⟩ := ih _ hinv'
                refine ⟨?_, ?_, ?_⟩
                · intro r hr
                  rcases List.mem_cons.mp hr with hr | hr
                  · rw [hr]; exact hse
                  · exact g1 r hr
                · rw [List.chain'_cons']
                  refine ⟨?_, g2⟩
                  intro r hr
                  have := g3 r hr
                  rw [show firstStart (DetState.accum (minObs - consec)
                    ((pending ++ [o.date]).headD o.date) o.date) r =
                    (r.start = (pending ++ [o.date]).headD o.date)
                    from rfl] at this
                  rw [show (⟨s, e, (pending ++ [o.date]).headD o.date⟩ :
                    SegSpan).end_ = e from rfl, this]
                  exact heb
                · intro r hr
                  simp only [List.head?_cons, Option.some.injEq] at hr
                  rw [← hr]
                  rfl
              · rw [if_neg hcm]
                have hinv' : DetInv
                    (DetState.monitor ((pending ++ [o.date]).headD o.date)
                      o.date []) rest := by
                  refine ⟨hbo, ?_, ?_, ?_, hrest⟩
                  · intro d hd; exact absurd hd (List.not_mem_nil d)
                  · intro d hd; exact absurd hd (List.not_mem_nil d)
                  · intro o' ho'; exact hp o' ho'
                obtain ⟨g1, g2, g3⟩ := ih _ hinv'
                refine ⟨?_, ?_, ?_⟩
                · intro r hr
                  rcases List.mem_cons.mp hr with hr | hr
                  · rw [hr]; exact hse
                  · exact g1 r hr
                · rw [List.chain'_cons']
                  refine ⟨?_, g2⟩
                  intro r hr
                  have := g3 r hr
                  rw [show firstStart (DetState.monitor
                    ((pending ++ [o.date]).headD o.date) o.date []) r =
                    (r.start = (pending ++ [o.date]).headD o.date)
                    from rfl] at this
                  rw [show (⟨s, e, (pending ++ [o.date]).headD o.date⟩ :
                    SegSpan).end_ = e from rfl, this]
                  exact heb
                · intro r hr
                  simp only [List.head?_cons, Option.some.injEq] at hr
                  rw [← hr]
                  rfl
            · rw [if_neg hlen]
              have hinv' : DetInv
                  (DetState.monitor s e (pending ++ [o.date])) rest := by
                refine ⟨hse, hpend', ?_, ?_, hrest⟩
                · intro d hd o' ho'
                  have hdo : d ≤ o.date := hpendo' d hd
                  exact le_trans hdo (hp o' ho')
                · intro o' ho'
                  exact le_trans heo (hp o' ho')
              obtain ⟨g1, g2, g3⟩ := ih _ hinv'
              exact ⟨g1, g2, fun r hr => g3 r hr⟩
          · rw [if_neg hex]
            have hinv' : DetInv (DetState.monitor s o.date []) rest := by
              refine ⟨le_trans hse heo, ?_, ?_, ?_, hrest⟩
              · intro d hd; exact absurd hd (List.not_mem_nil d)
              · intro d hd; exact absurd hd (List.not_mem_nil d)
              · intro o' ho'; exact hp o' ho'
            obtain ⟨g1, g2, g3⟩ := ih _ hinv'
            exact ⟨g1, g2, fun r hr => g3 r hr⟩

/-- C7: for a time-ordered observation sequence, the sequence of emitted
segment records is temporally ordered and non-overlapping — every record
satisfies `start ≤ end`, and every consecutive pair satisfies
`record[i].end ≤ record[i+1].start`. -/
theorem C7_records_ordered (minObs consec : Nat) (obs : List Obs)
    (hobs : List.Pairwise (fun a b : Obs => a.date ≤ b.date) obs) :
    (∀ r ∈ detectSegments minObs consec obs, r.start ≤ r.end_) ∧
    List.Chain' (fun a b => a.end_ ≤ b.start)
      (detectSegments minObs consec obs) := by
  have h := runDetector_sound minObs consec obs DetState.empty hobs
  exact ⟨h.1, h.2.1⟩

/-- C7 (witness): with `min_obs = 2` and `consecutive = 2` the detector emits
two records — `[1, 2]` broken at date 3 and `[3, 6]` closed at series end —
and `C7_records_ordered` applies to this time-ordered input. -/
theorem C7_records_ordered_witness :
    detectSegments 2 2 demoObs =
      [{ start := 1, end_ := 2, brk := 3 }, { start := 3, end_ := 6, brk := 0 }] ∧
    List.Chain' (fun a b => a.end_ ≤ b.start) (detectSegments 2 2 demoObs) :=
  ⟨by decide, (C7_records_ordered 2 2 demoObs (by decide)).2⟩
